import Mathlib

/-!
Verification of the concurrency and coordination core of the `russ` feed
reader (`src/main.rs`) against its natural-language specification.

The development shallowly embeds the program:

* the typed command protocol (`IoCommand`), the unified input event stream
  (`Event`), and the UI mode machine (`Mode`) are translated directly from
  the Rust enums;
* the body of `async_io_loop`'s `match` is translated into the pure handler
  `async_io_handle`; external effects (database pool, network, redraw) are
  oracles collected in `Env`, so a handler is a function of the command, the
  shared application state and those oracles;
* the loop itself becomes a small-step relation `IoStep` over a state that
  carries the FIFO queue contents, the list of already-handled commands and
  an abstract clock.  A `handle` step is atomic because the Rust loop awaits
  each arm (including all of its asynchronous sub-work, which
  `refresh_feeds` drains to completion before returning) before calling
  `rx.recv()` again; commands sent by the producer while a handler runs are
  the `during` argument of the step, and they enter the queue before the
  handler's own trailing `ClearFlash` send, exactly as in the source;
* `refresh_feeds` is embedded twice, at two granularities: a functional
  fold over the completion order delivered by `buffer_unordered` (used by
  the loop handlers), and a small-step scheduler `SchedStep` that exposes
  the in-flight window of `buffer_unordered(num_cpus::get() * 2)`;
* the render/control thread's key dispatch (`main`'s big `match`) becomes
  `main_handle_event`, and the input/tick thread's loop body becomes
  `input_tick_iteration`.

Methods of `App` live in `src/app.rs`, which is not part of the sources
given here; those accessor bodies are modelled from the specification and
are marked `Modelled from the spec:` below.  Everything else is translated
from `src/main.rs`.
-/

namespace Russ

/-- `crate::rss::FeedId`: an opaque stable feed identifier. -/
abbrev FeedId := Nat

/-- `crate::rss::Feed`: the persisted feed record.  Its contents are opaque
to the coordination core, so it is modelled as an opaque token. -/
abbrev Feed := Nat

/-- Modelled from the spec: `crate::modes::Mode`, the UI mode enumeration
`{Normal, Editing}` (the `modes` module is not among the given sources). -/
inductive Mode
  | Normal
  | Editing
deriving DecidableEq

/-- Modelled from the spec: `crate::modes::Selected`, the active-pane
selection (feed list vs entry panes). -/
inductive Selected
  | Feeds
  | Entries
deriving DecidableEq

/-- `crossterm::event::KeyCode`, restricted to the constructors the program
matches on (every other key falls into `OtherKey`, the `_` of the match). -/
inductive KeyCode
  | Char (c : Char)
  | Esc
  | Enter
  | Backspace
  | Delete
  | OtherKey
deriving DecidableEq

/-- `crossterm::event::KeyModifiers`, restricted to the values the program
distinguishes: the source matches `KeyModifiers::NONE` and
`KeyModifiers::CONTROL` exactly and wildcards everything else. -/
inductive KeyModifiers
  | NONE
  | CONTROL
  | SHIFT
  | ALT
deriving DecidableEq

/-- `crossterm::event::KeyEvent`: a key code together with its modifiers. -/
structure KeyEvent where
  code : KeyCode
  modifiers : KeyModifiers
deriving DecidableEq

/-- `pub enum Event<I> { Input(I), Tick }` from `src/main.rs`. -/
inductive Event (I : Type)
  | Input (i : I)
  | Tick
deriving DecidableEq

/-- `enum IoCommand` from `src/main.rs`. -/
inductive IoCommand
  | Break
  | RefreshFeed (fid : FeedId)
  | RefreshFeeds (fids : List FeedId)
  | SubscribeToFeed (input : String)
  | ClearFlash
deriving DecidableEq

/-- The shared application state (`App`), restricted to the fields the
claims are about.  `flash` is the transient status notification, and
`errorFlash` is the separate accumulated list of error notifications
(`push_error_flash` / `clear_error_flash` in the source). -/
structure AppState where
  mode : Mode
  selected : Selected
  flash : Option String
  errorFlash : List String
  feeds : List Feed
  feedSubscriptionInput : String
  selectedFeedId : FeedId
deriving DecidableEq

/-- Modelled from the spec: `App::set_flash` overwrites the transient
notification with the newest message (`app.rs` is not among the sources). -/
def set_flash (a : AppState) (msg : String) : AppState :=
  { a with flash := some msg }

/-- Modelled from the spec: `App::clear_flash` clears the transient
notification unconditionally. -/
def clear_flash (a : AppState) : AppState :=
  { a with flash := none }

/-- Modelled from the spec: `App::push_error_flash` accumulates an
error-flagged notification. -/
def push_error_flash (a : AppState) (e : String) : AppState :=
  { a with errorFlash := a.errorFlash ++ [e] }

/-- Modelled from the spec: `App::clear_error_flash` dismisses only the
error notifications. -/
def clear_error_flash (a : AppState) : AppState :=
  { a with errorFlash := [] }

/-- Modelled from the spec: `App::error_flash_is_empty`. -/
def error_flash_is_empty (a : AppState) : Bool :=
  a.errorFlash.isEmpty

/-- Modelled from the spec: `App::set_mode`. -/
def set_mode (a : AppState) (m : Mode) : AppState :=
  { a with mode := m }

/-- Modelled from the spec: `App::push_feed_subscription_input` appends a
typed character to the subscription input buffer. -/
def push_feed_subscription_input (a : AppState) (c : Char) : AppState :=
  { a with feedSubscriptionInput := a.feedSubscriptionInput.push c }

/-- Modelled from the spec: `App::pop_feed_subscription_input` removes the
last character of the subscription input buffer. -/
def pop_feed_subscription_input (a : AppState) : AppState :=
  { a with feedSubscriptionInput := a.feedSubscriptionInput.dropRight 1 }

/-- Modelled from the spec: `App::reset_feed_subscription_input`. -/
def reset_feed_subscription_input (a : AppState) : AppState :=
  { a with feedSubscriptionInput := "" }

/-- Modelled from the spec: `App::set_feeds` replaces the feed collection
wholesale. -/
def set_feeds (a : AppState) (fs : List Feed) : AppState :=
  { a with feeds := fs }

/-- Modelled from the spec: `App::select_feeds` reselects the feed pane. -/
def select_feeds (a : AppState) : AppState :=
  { a with selected := Selected.Feeds }

/-- Outcomes of the external calls made by the I/O thread.  Each field is
the result of one collaborator call appearing in `src/main.rs`:
`poolGetUnit`/`refreshFeed` are the `connection_pool.get()` and
`crate::rss::refresh_feed` calls inside a unit of work, `joinResult` is the
`spawn_blocking` join outcome (`some e` is a scheduling fault), `order` is
the completion order in which `buffer_unordered` yields the units,
`poolGetSub`/`subscribeToFeed`/`getFeeds` are the calls of the
`SubscribeToFeed` arm, `updateCurrent` is
`App::update_current_feed_and_entries`, `forceRedraw` is
`App::force_redraw`, `elapsed` the formatted `Instant::elapsed`, and
`flashDur` the `flash_display_duration_seconds` option. -/
structure Env where
  poolGetUnit : FeedId → Except String Unit
  refreshFeed : FeedId → Except String Unit
  joinResult : FeedId → Option String
  order : List FeedId → List FeedId
  poolGetSub : Except String Unit
  subscribeToFeed : String → Except String Unit
  getFeeds : Except String (List Feed)
  updateCurrent : Except String Unit
  forceRedraw : Except String Unit
  elapsed : String
  flashDur : Nat

/-- The closure passed to `tokio::task::spawn_blocking` in `refresh_feeds`:
`let conn = pool_get_result?; crate::rss::refresh_feed(&http, &conn, feed_id)?`.
A failure to obtain the pooled connection is the unit's own failure. -/
def unit_task (env : Env) (fid : FeedId) : Except String Unit :=
  match env.poolGetUnit fid with
  | Except.error e => Except.error e
  | Except.ok _ => env.refreshFeed fid

/-- The drain loop of `refresh_feeds`:
`while let Some(task_join_result) = buffered_requests.next().await {
   let fetch_result = task_join_result?; f(app, fetch_result) }`,
as a fold over the completion order in which `buffer_unordered` yields the
units.  Only a join failure (`task_join_result?`, a scheduling fault)
aborts; each unit's own outcome is passed to the accumulator `f`. -/
def refresh_feeds {α : Type} (env : Env) (f : α → Except String Unit → α) :
    List FeedId → α → Except String α
  | [], acc => Except.ok acc
  | fid :: rest, acc =>
    match env.joinResult fid with
    | some joinErr => Except.error joinErr
    | none => refresh_feeds env f rest (f acc (unit_task env fid))

/-- The accumulator closure of the `RefreshFeed` arm:
`|_app, fetch_result| if let Err(e) = fetch_result { app.push_error_flash(e) }`. -/
def refresh_one_step (a : AppState) (r : Except String Unit) : AppState :=
  match r with
  | Except.ok _ => a
  | Except.error e => push_error_flash a e

/-- The accumulator closure of the `RefreshFeeds` arm: it counts successes
in `successfully_refreshed_len` and pushes unit errors to the error flash. -/
def refresh_many_step (p : AppState × Nat) (r : Except String Unit) : AppState × Nat :=
  match r with
  | Except.ok _ => (p.1, p.2 + 1)
  | Except.error e => (push_error_flash p.1 e, p.2)

/-- `async fn clear_flash_after`: sleep for the flash display duration, then
send `IoCommand::ClearFlash` into the I/O thread's own queue.  The result is
the slept duration paired with the commands enqueued at the end of it. -/
def clear_flash_after (duration : Nat) : Nat × List IoCommand :=
  (duration, [IoCommand.ClearFlash])

/-- The result of running one `async_io_loop` match arm to completion:
`err` is `some e` when the arm propagated an error with `?` (which makes
`async_io_loop` return and the I/O thread stop), `app` the application state
left behind, `selfEnqueued` the commands the arm sent into its own queue,
and `slept` the duration the arm awaited before sending them. -/
structure HandleOut where
  err : Option String
  app : AppState
  selfEnqueued : List IoCommand
  slept : Nat
deriving DecidableEq

/-- The `RefreshFeed(feed_id)` arm of `async_io_loop`. -/
def handle_refresh_feed (env : Env) (app0 : AppState) (fid : FeedId) : HandleOut :=
  let app := set_flash app0 "Refreshing feed..."
  match env.forceRedraw with
  | Except.error e => ⟨some e, app, [], 0⟩
  | Except.ok _ =>
    match refresh_feeds env refresh_one_step (env.order [fid]) app with
    | Except.error e => ⟨some e, app, [], 0⟩
    | Except.ok app1 =>
      match env.updateCurrent with
      | Except.error e => ⟨some e, app1, [], 0⟩
      | Except.ok _ =>
        let app2 := set_flash app1 ("Refreshed feed in " ++ env.elapsed)
        match env.forceRedraw with
        | Except.error e => ⟨some e, app2, [], 0⟩
        | Except.ok _ =>
          ⟨none, app2, (clear_flash_after env.flashDur).2, (clear_flash_after env.flashDur).1⟩

/-- The `RefreshFeeds(feed_ids)` arm of `async_io_loop`. -/
def handle_refresh_feeds (env : Env) (app0 : AppState) (fids : List FeedId) : HandleOut :=
  let app := set_flash app0 "Refreshing all feeds..."
  match env.forceRedraw with
  | Except.error e => ⟨some e, app, [], 0⟩
  | Except.ok _ =>
    match refresh_feeds env refresh_many_step (env.order fids) (app, 0) with
    | Except.error e => ⟨some e, app, [], 0⟩
    | Except.ok p =>
      match env.updateCurrent with
      | Except.error e => ⟨some e, p.1, [], 0⟩
      | Except.ok _ =>
        let app2 := set_flash p.1
          ("Refreshed " ++ toString p.2 ++ "/" ++ toString fids.length
            ++ " feeds in " ++ env.elapsed)
        match env.forceRedraw with
        | Except.error e => ⟨some e, app2, [], 0⟩
        | Except.ok _ =>
          ⟨none, app2, (clear_flash_after env.flashDur).2, (clear_flash_after env.flashDur).1⟩

/-- The `SubscribeToFeed(feed_subscription_input)` arm of `async_io_loop`.
Note the asymmetry translated from the source: `connection_pool.get()?` and
`app.update_current_feed_and_entries()?` propagate with `?`, while failures
of `subscribe_to_feed` and `get_feeds` are pushed to the error flash and the
loop `continue`s. -/
def handle_subscribe (env : Env) (app0 : AppState) (input : String) : HandleOut :=
  let app := set_flash app0 "Subscribing to feed..."
  match env.forceRedraw with
  | Except.error e => ⟨some e, app, [], 0⟩
  | Except.ok _ =>
    match env.poolGetSub with
    | Except.error e => ⟨some e, app, [], 0⟩
    | Except.ok _ =>
      match env.subscribeToFeed input with
      | Except.error e => ⟨none, push_error_flash app e, [], 0⟩
      | Except.ok _ =>
        match env.getFeeds with
        | Except.error e => ⟨none, push_error_flash app e, [], 0⟩
        | Except.ok feeds =>
          let app1 := select_feeds (set_feeds (reset_feed_subscription_input app) feeds)
          match env.updateCurrent with
          | Except.error e => ⟨some e, app1, [], 0⟩
          | Except.ok _ =>
            let app2 := set_flash app1 ("Subscribed in " ++ env.elapsed)
            match env.forceRedraw with
            | Except.error e => ⟨some e, app2, [], 0⟩
            | Except.ok _ =>
              ⟨none, app2, (clear_flash_after env.flashDur).2, (clear_flash_after env.flashDur).1⟩

/-- One command dispatch of `async_io_loop`'s `match event { ... }`. -/
def async_io_handle (env : Env) (app : AppState) : IoCommand → HandleOut
  | IoCommand.Break => ⟨none, app, [], 0⟩
  | IoCommand.RefreshFeed fid => handle_refresh_feed env app fid
  | IoCommand.RefreshFeeds fids => handle_refresh_feeds env app fids
  | IoCommand.SubscribeToFeed input => handle_subscribe env app input
  | IoCommand.ClearFlash => ⟨none, clear_flash app, [], 0⟩

/-- Whether `async_io_loop` keeps receiving after this command
(`Break => break` leaves the `while let` loop). -/
def continues : IoCommand → Bool
  | IoCommand.Break => false
  | _ => true

/-- State of the I/O thread's command loop: whether the loop is still
receiving, the shared application state, the FIFO contents of the
`mpsc` command channel, the commands handled so far in order, and an
abstract clock. -/
structure IoLoopState where
  running : Bool
  app : AppState
  pending : List IoCommand
  handled : List IoCommand
  now : Nat
deriving DecidableEq

/-- Successor state of a producer send: `mpsc::Sender::send` appends to the
tail of the FIFO channel. -/
def io_send_succ (s : IoLoopState) (c : IoCommand) : IoLoopState :=
  { s with pending := s.pending ++ [c] }

/-- Successor state of one `rx.recv()` + arm execution.  `during` are the
commands the producer sent while the arm ran: they entered the channel
before the arm's own trailing sends, so they sit ahead of `selfEnqueued`.
`w` is the time the arm spent besides its deliberate sleep. -/
def io_handle_succ (env : Env) (s : IoLoopState) (c : IoCommand)
    (rest during : List IoCommand) (w : Nat) : IoLoopState :=
  { running := (async_io_handle env s.app c).err.isNone && continues c
    app := (async_io_handle env s.app c).app
    pending := rest ++ during ++ (async_io_handle env s.app c).selfEnqueued
    handled := s.handled ++ [c]
    now := s.now + w + (async_io_handle env s.app c).slept }

/-- Small-step semantics of the I/O thread together with its producers:
either some producer sends a command (tail of the FIFO queue), or the
single consumer dequeues the head and runs its arm to completion. -/
inductive IoStep (env : Env) : IoLoopState → IoLoopState → Prop
  | send (s : IoLoopState) (c : IoCommand) : IoStep env s (io_send_succ s c)
  | handle (s : IoLoopState) (c : IoCommand) (rest during : List IoCommand) (w : Nat)
      (hrun : s.running = true) (hpend : s.pending = c :: rest) :
      IoStep env s (io_handle_succ env s c rest during w)

/-- Every command that ever entered the queue, in arrival order: the ones
already handled followed by the ones still pending. -/
def arrivals (s : IoLoopState) : List IoCommand :=
  s.handled ++ s.pending

theorem ioStep_handled_mono {env : Env} {s t : IoLoopState} (h : IoStep env s t) :
    s.handled <+: t.handled := by
  cases h with
  | send c => exact List.prefix_refl _
  | handle c rest during w hrun hpend => exact List.prefix_append _ _

theorem ioStep_arrivals_mono {env : Env} {s t : IoLoopState} (h : IoStep env s t) :
    arrivals s <+: arrivals t := by
  cases h with
  | send c =>
      refine ⟨[c], ?_⟩
      simp [arrivals, io_send_succ]
  | handle c rest during w hrun hpend =>
      refine ⟨during ++ (async_io_handle env s.app c).selfEnqueued, ?_⟩
      simp [arrivals, io_handle_succ, hpend]

theorem io_handled_le_arrivals (s : IoLoopState) : s.handled <+: arrivals s :=
  List.prefix_append _ _

theorem ioReach_handled_mono {env : Env} {s t : IoLoopState}
    (h : Relation.ReflTransGen (IoStep env) s t) : s.handled <+: t.handled := by
  induction h with
  | refl => exact List.prefix_refl _
  | tail _ hstep ih => exact ih.trans (ioStep_handled_mono hstep)

theorem ioReach_arrivals_mono {env : Env} {s t : IoLoopState}
    (h : Relation.ReflTransGen (IoStep env) s t) : arrivals s <+: arrivals t := by
  induction h with
  | refl => exact List.prefix_refl _
  | tail _ hstep ih => exact ih.trans (ioStep_arrivals_mono hstep)

theorem ioReach_handled_comparable {env : Env} {s t : IoLoopState}
    (h : Relation.ReflTransGen (IoStep env) s t) :
    t.handled <+: arrivals s ∨ arrivals s <+: t.handled :=
  List.prefix_or_prefix_of_prefix (io_handled_le_arrivals t) (ioReach_arrivals_mono h)

theorem ioStep_now_mono {env : Env} {s t : IoLoopState} (h : IoStep env s t) :
    s.now ≤ t.now := by
  cases h with
  | send c => exact Nat.le_refl _
  | handle c rest during w hrun hpend =>
      simp only [io_handle_succ]
      omega

theorem ioReach_now_mono {env : Env} {s t : IoLoopState}
    (h : Relation.ReflTransGen (IoStep env) s t) : s.now ≤ t.now := by
  induction h with
  | refl => exact Nat.le_refl _
  | tail _ hstep ih => exact Nat.le_trans ih (ioStep_now_mono hstep)

theorem refresh_feeds_ok {α : Type} (env : Env) (f : α → Except String Unit → α) :
    ∀ (order : List FeedId) (acc : α), (∀ fid ∈ order, env.joinResult fid = none) →
      refresh_feeds env f order acc
        = Except.ok (order.foldl (fun a g => f a (unit_task env g)) acc) := by
  intro order
  induction order with
  | nil => intro acc _; rfl
  | cons fid rest ih =>
      intro acc h
      have h1 : env.joinResult fid = none := h fid (by simp)
      simp only [refresh_feeds, h1, List.foldl]
      exact ih _ (fun g hg => h g (by simp [hg]))

theorem refresh_feeds_join_abort {α : Type} (env : Env) (f : α → Except String Unit → α) :
    ∀ (order : List FeedId) (acc : α), (∃ fid ∈ order, env.joinResult fid ≠ none) →
      ∃ e, refresh_feeds env f order acc = Except.error e := by
  intro order
  induction order with
  | nil =>
      rintro acc ⟨fid, hmem, _⟩
      simp at hmem
  | cons g rest ih =>
      rintro acc ⟨fid, hmem, hne⟩
      cases hj : env.joinResult g with
      | some e => exact ⟨e, by simp [refresh_feeds, hj]⟩
      | none =>
          rcases List.mem_cons.mp hmem with rfl | hmem2
          · exact absurd hj hne
          · rcases ih (f acc (unit_task env g)) ⟨fid, hmem2, hne⟩ with ⟨e, he⟩
            exact ⟨e, by simp [refresh_feeds, hj, he]⟩

theorem handle_refresh_feed_ok (env : Env) (app : AppState) (fid : FeedId) (app1 : AppState)
    (hfr : env.forceRedraw = Except.ok ()) (huc : env.updateCurrent = Except.ok ())
    (hrf : refresh_feeds env refresh_one_step (env.order [fid])
             (set_flash app "Refreshing feed...") = Except.ok app1) :
    handle_refresh_feed env app fid
      = ⟨none, set_flash app1 ("Refreshed feed in " ++ env.elapsed),
         [IoCommand.ClearFlash], env.flashDur⟩ := by
  simp [handle_refresh_feed, hfr, huc, hrf, clear_flash_after]

theorem handle_refresh_feeds_ok (env : Env) (app : AppState) (fids : List FeedId)
    (p : AppState × Nat)
    (hfr : env.forceRedraw = Except.ok ()) (huc : env.updateCurrent = Except.ok ())
    (hrf : refresh_feeds env refresh_many_step (env.order fids)
             (set_flash app "Refreshing all feeds...", 0) = Except.ok p) :
    handle_refresh_feeds env app fids
      = ⟨none, set_flash p.1 ("Refreshed " ++ toString p.2 ++ "/" ++ toString fids.length
           ++ " feeds in " ++ env.elapsed), [IoCommand.ClearFlash], env.flashDur⟩ := by
  simp [handle_refresh_feeds, hfr, huc, hrf, clear_flash_after]

theorem handle_subscribe_ok (env : Env) (app : AppState) (input : String) (fs : List Feed)
    (hfr : env.forceRedraw = Except.ok ()) (hpool : env.poolGetSub = Except.ok ())
    (hsub : env.subscribeToFeed input = Except.ok ()) (hfs : env.getFeeds = Except.ok fs)
    (huc : env.updateCurrent = Except.ok ()) :
    handle_subscribe env app input
      = ⟨none,
         set_flash
           (select_feeds (set_feeds (reset_feed_subscription_input
             (set_flash app "Subscribing to feed...")) fs))
           ("Subscribed in " ++ env.elapsed),
         [IoCommand.ClearFlash], env.flashDur⟩ := by
  simp [handle_subscribe, hfr, hpool, hsub, hfs, huc, clear_flash_after]

/-- C1: every command sent to the I/O thread is handled strictly one at a
time, in exactly the order of arrival in the FIFO queue.  Along any
execution, the list of handled commands only ever grows (nothing is
un-handled or reordered), the arrival sequence only ever grows at the tail
(in particular a handler's self-enqueued `ClearFlash` joins the tail of the
same queue), the handled list is at every instant a prefix of the arrival
sequence (so no command is skipped while a later one is handled), and every
individual handling step dequeues exactly the head of the queue after the
previous handler ran to completion. -/
theorem async_io_loop_fifo (env : Env) (s t : IoLoopState)
    (h : Relation.ReflTransGen (IoStep env) s t) :
    s.handled <+: t.handled
    ∧ arrivals s <+: arrivals t
    ∧ t.handled <+: arrivals t
    ∧ (∀ u v : IoLoopState, IoStep env u v →
        v.handled = u.handled
        ∨ ∃ c rest during, u.pending = c :: rest ∧ v.handled = u.handled ++ [c]
            ∧ v.pending = rest ++ during ++ (async_io_handle env u.app c).selfEnqueued) := by
  refine ⟨ioReach_handled_mono h, ioReach_arrivals_mono h, io_handled_le_arrivals t, ?_⟩
  intro u v hstep
  cases hstep with
  | send c => exact Or.inl rfl
  | handle c rest during w hrun hpend =>
      exact Or.inr ⟨c, rest, during, hpend, rfl, rfl⟩

/-- A trivial environment used by concrete witnesses. -/
def envW : Env :=
  { poolGetUnit := fun _ => Except.ok ()
    refreshFeed := fun _ => Except.ok ()
    joinResult := fun _ => none
    order := fun l => l
    poolGetSub := Except.ok ()
    subscribeToFeed := fun _ => Except.ok ()
    getFeeds := Except.ok [7]
    updateCurrent := Except.ok ()
    forceRedraw := Except.ok ()
    elapsed := "1s"
    flashDur := 4 }

/-- A concrete application state used by witnesses. -/
def appW : AppState :=
  { mode := Mode.Normal
    selected := Selected.Feeds
    flash := none
    errorFlash := []
    feeds := [7]
    feedSubscriptionInput := ""
    selectedFeedId := 7 }

def ioW0 : IoLoopState :=
  { running := true, app := appW, pending := [IoCommand.ClearFlash], handled := [], now := 0 }

def ioW1 : IoLoopState := io_handle_succ envW ioW0 IoCommand.ClearFlash [] [] 0

theorem async_io_loop_fifo_witness :
    ioW0.handled <+: ioW1.handled
    ∧ arrivals ioW0 <+: arrivals ioW1
    ∧ ioW1.handled <+: arrivals ioW1
    ∧ (∀ u v : IoLoopState, IoStep envW u v →
        v.handled = u.handled
        ∨ ∃ c rest during, u.pending = c :: rest ∧ v.handled = u.handled ++ [c]
            ∧ v.pending = rest ++ during ++ (async_io_handle envW u.app c).selfEnqueued) :=
  async_io_loop_fifo envW ioW0 ioW1
    (Relation.ReflTransGen.single
      (IoStep.handle ioW0 IoCommand.ClearFlash [] [] 0 rfl rfl))

/-- C9: handling `ClearFlash` clears the status notification
unconditionally: it erases whatever notification is currently displayed —
including one that was set after the clear was scheduled — makes no other
state change, enqueues nothing and sleeps for nothing; the result does not
depend on the notification's current value at all. -/
theorem clear_notification_unconditional (env : Env) (app : AppState) (msg : Option String) :
    async_io_handle env app IoCommand.ClearFlash = ⟨none, clear_flash app, [], 0⟩
    ∧ clear_flash app = { app with flash := none }
    ∧ (async_io_handle env { app with flash := msg } IoCommand.ClearFlash).app
        = { app with flash := none }
    ∧ (async_io_handle env { app with flash := msg } IoCommand.ClearFlash).app
        = (async_io_handle env app IoCommand.ClearFlash).app :=
  ⟨rfl, rfl, rfl, rfl⟩

theorem clear_notification_unconditional_witness :
    async_io_handle envW appW IoCommand.ClearFlash = ⟨none, clear_flash appW, [], 0⟩
    ∧ clear_flash appW = { appW with flash := none }
    ∧ (async_io_handle envW { appW with flash := some "newer" } IoCommand.ClearFlash).app
        = { appW with flash := none }
    ∧ (async_io_handle envW { appW with flash := some "newer" } IoCommand.ClearFlash).app
        = (async_io_handle envW appW IoCommand.ClearFlash).app :=
  clear_notification_unconditional envW appW (some "newer")

theorem async_io_handle_clear_enqueue (env : Env) (app : AppState) (c : IoCommand)
    (hfr : env.forceRedraw = Except.ok ()) (huc : env.updateCurrent = Except.ok ())
    (hc : (∃ fid, c = IoCommand.RefreshFeed fid
             ∧ ∀ g ∈ env.order [fid], env.joinResult g = none)
        ∨ (∃ fids, c = IoCommand.RefreshFeeds fids
             ∧ ∀ g ∈ env.order fids, env.joinResult g = none)
        ∨ (∃ input, c = IoCommand.SubscribeToFeed input ∧ env.poolGetSub = Except.ok ()
             ∧ env.subscribeToFeed input = Except.ok ()
             ∧ ∃ fs, env.getFeeds = Except.ok fs)) :
    (async_io_handle env app c).selfEnqueued = [IoCommand.ClearFlash]
    ∧ (async_io_handle env app c).slept = env.flashDur := by
  rcases hc with ⟨fid, rfl, hjoin⟩ | ⟨fids, rfl, hjoin⟩ | ⟨input, rfl, hpool, hsub, fs, hfs⟩
  · have h1 := refresh_feeds_ok env refresh_one_step (env.order [fid])
      (set_flash app "Refreshing feed...") hjoin
    have h2 := handle_refresh_feed_ok env app fid _ hfr huc h1
    simp [async_io_handle, h2]
  · have h1 := refresh_feeds_ok env refresh_many_step (env.order fids)
      (set_flash app "Refreshing all feeds...", 0) hjoin
    have h2 := handle_refresh_feeds_ok env app fids _ hfr huc h1
    simp [async_io_handle, h2]
  · have h2 := handle_subscribe_ok env app input fs hfr hpool hsub hfs huc
    simp [async_io_handle, h2]

/-- C10: the delayed clear is performed inline in the command handler.
After a `RefreshFeed`, a `RefreshFeeds`, or a successful `SubscribeToFeed`,
the handler enqueues exactly one `ClearFlash` and does so only after
sleeping the full flash-display duration inside the handler, so the clock
of the successor state — from which any next dequeue happens — is at least
the flash duration later; the `ClearFlash` sits at the tail of the queue
behind every command sent during the delay (`during`), and in every
continuation of the run the handled sequence and this queue snapshot are
prefix-comparable, so each of those earlier commands is handled before the
trailing `ClearFlash`. -/
theorem clear_flash_after_inline (env : Env) (s : IoLoopState) (c : IoCommand)
    (rest during : List IoCommand) (w : Nat)
    (hrun : s.running = true) (hpend : s.pending = c :: rest)
    (hfr : env.forceRedraw = Except.ok ()) (huc : env.updateCurrent = Except.ok ())
    (hc : (∃ fid, c = IoCommand.RefreshFeed fid
             ∧ ∀ g ∈ env.order [fid], env.joinResult g = none)
        ∨ (∃ fids, c = IoCommand.RefreshFeeds fids
             ∧ ∀ g ∈ env.order fids, env.joinResult g = none)
        ∨ (∃ input, c = IoCommand.SubscribeToFeed input ∧ env.poolGetSub = Except.ok ()
             ∧ env.subscribeToFeed input = Except.ok ()
             ∧ ∃ fs, env.getFeeds = Except.ok fs)) :
    (async_io_handle env s.app c).selfEnqueued = [IoCommand.ClearFlash]
    ∧ (async_io_handle env s.app c).slept = env.flashDur
    ∧ IoStep env s (io_handle_succ env s c rest during w)
    ∧ (io_handle_succ env s c rest during w).pending
        = rest ++ during ++ [IoCommand.ClearFlash]
    ∧ s.now + env.flashDur ≤ (io_handle_succ env s c rest during w).now
    ∧ ∀ u, Relation.ReflTransGen (IoStep env) (io_handle_succ env s c rest during w) u →
        (io_handle_succ env s c rest during w).now ≤ u.now
        ∧ (u.handled <+: arrivals (io_handle_succ env s c rest during w)
           ∨ arrivals (io_handle_succ env s c rest during w) <+: u.handled) := by
  obtain ⟨h1, h2⟩ := async_io_handle_clear_enqueue env s.app c hfr huc hc
  refine ⟨h1, h2, IoStep.handle s c rest during w hrun hpend, ?_, ?_, ?_⟩
  · simp [io_handle_succ, h1]
  · simp only [io_handle_succ, h2]
    omega
  · intro u hu
    exact ⟨ioReach_now_mono hu, ioReach_handled_comparable hu⟩

def ioW2 : IoLoopState :=
  { running := true, app := appW, pending := [IoCommand.RefreshFeed 7], handled := [], now := 0 }

theorem clear_flash_after_inline_witness :
    (async_io_handle envW ioW2.app (IoCommand.RefreshFeed 7)).selfEnqueued
        = [IoCommand.ClearFlash]
    ∧ (async_io_handle envW ioW2.app (IoCommand.RefreshFeed 7)).slept = envW.flashDur
    ∧ IoStep envW ioW2 (io_handle_succ envW ioW2 (IoCommand.RefreshFeed 7) [] [IoCommand.Break] 3)
    ∧ (io_handle_succ envW ioW2 (IoCommand.RefreshFeed 7) [] [IoCommand.Break] 3).pending
        = [] ++ [IoCommand.Break] ++ [IoCommand.ClearFlash]
    ∧ ioW2.now + envW.flashDur
        ≤ (io_handle_succ envW ioW2 (IoCommand.RefreshFeed 7) [] [IoCommand.Break] 3).now
    ∧ ∀ u, Relation.ReflTransGen (IoStep envW)
          (io_handle_succ envW ioW2 (IoCommand.RefreshFeed 7) [] [IoCommand.Break] 3) u →
        (io_handle_succ envW ioW2 (IoCommand.RefreshFeed 7) [] [IoCommand.Break] 3).now ≤ u.now
        ∧ (u.handled <+: arrivals (io_handle_succ envW ioW2 (IoCommand.RefreshFeed 7) [] [IoCommand.Break] 3)
           ∨ arrivals (io_handle_succ envW ioW2 (IoCommand.RefreshFeed 7) [] [IoCommand.Break] 3) <+: u.handled) :=
  clear_flash_after_inline envW ioW2 (IoCommand.RefreshFeed 7) [] [IoCommand.Break] 3
    rfl rfl rfl rfl (Or.inl ⟨7, rfl, by decide⟩)

/-- Environment in which the pooled database connection of the
`SubscribeToFeed` arm cannot be acquired. -/
def envC4 : Env := { envW with poolGetSub := Except.error "db pool" }

def ioC4 : IoLoopState :=
  { running := true, app := appW,
    pending := [IoCommand.SubscribeToFeed "https://example.com/feed"],
    handled := [], now := 0 }

/-- C4 counterexample: when `connection_pool.get()?` fails inside the
`SubscribeToFeed` arm, the error is NOT converted into an error-flagged
notification — it propagates out of `async_io_loop` (`err = some _`, the
error flash is untouched) and the I/O command loop stops running. -/
theorem subscribe_pool_failure_aborts_loop :
    (async_io_handle envC4 appW (IoCommand.SubscribeToFeed "https://example.com/feed")).err
        = some "db pool"
    ∧ (async_io_handle envC4 appW
        (IoCommand.SubscribeToFeed "https://example.com/feed")).app.errorFlash
        = appW.errorFlash
    ∧ (io_handle_succ envC4 ioC4
        (IoCommand.SubscribeToFeed "https://example.com/feed") [] [] 0).running = false :=
  ⟨rfl, rfl, rfl⟩

/-- C4 (amended): failures of the fetch/validate/persist step
(`subscribe_to_feed`) and of re-reading the feed list (`get_feeds`) during a
`SubscribeNew` command are converted into an error-flagged notification;
beyond the already-set in-progress flash and that appended error, no state
change is made (input buffer, feeds and selection untouched), nothing is
self-enqueued, and the loop keeps running.  (A pooled-connection failure
instead propagates and terminates the loop — see the counterexample.) -/
theorem subscribe_recoverable_failures (env : Env) (app : AppState) (input e : String)
    (hfr : env.forceRedraw = Except.ok ()) (hpool : env.poolGetSub = Except.ok ()) :
    (env.subscribeToFeed input = Except.error e →
      async_io_handle env app (IoCommand.SubscribeToFeed input)
        = ⟨none, push_error_flash (set_flash app "Subscribing to feed...") e, [], 0⟩)
    ∧ (env.subscribeToFeed input = Except.ok () → env.getFeeds = Except.error e →
      async_io_handle env app (IoCommand.SubscribeToFeed input)
        = ⟨none, push_error_flash (set_flash app "Subscribing to feed...") e, [], 0⟩)
    ∧ continues (IoCommand.SubscribeToFeed input) = true
    ∧ push_error_flash (set_flash app "Subscribing to feed...") e
        = { app with flash := some "Subscribing to feed..."
                     errorFlash := app.errorFlash ++ [e] } := by
  refine ⟨?_, ?_, rfl, rfl⟩
  · intro hsub
    simp [async_io_handle, handle_subscribe, hfr, hpool, hsub]
  · intro hsub hfs
    simp [async_io_handle, handle_subscribe, hfr, hpool, hsub, hfs]

/-- Environment in which fetching/validating the new subscription fails. -/
def envC4w : Env := { envW with subscribeToFeed := fun _ => Except.error "invalid feed" }

theorem subscribe_recoverable_failures_witness :
    (envC4w.subscribeToFeed "u" = Except.error "invalid feed" →
      async_io_handle envC4w appW (IoCommand.SubscribeToFeed "u")
        = ⟨none, push_error_flash (set_flash appW "Subscribing to feed...") "invalid feed", [], 0⟩)
    ∧ (envC4w.subscribeToFeed "u" = Except.ok () → envC4w.getFeeds = Except.error "invalid feed" →
      async_io_handle envC4w appW (IoCommand.SubscribeToFeed "u")
        = ⟨none, push_error_flash (set_flash appW "Subscribing to feed...") "invalid feed", [], 0⟩)
    ∧ continues (IoCommand.SubscribeToFeed "u") = true
    ∧ push_error_flash (set_flash appW "Subscribing to feed...") "invalid feed"
        = { appW with flash := some "Subscribing to feed..."
                      errorFlash := appW.errorFlash ++ ["invalid feed"] } :=
  subscribe_recoverable_failures envC4w appW "u" "invalid feed" rfl rfl

/-- Whether a unit of work succeeds outright (pooled connection acquired and
the fetch/parse/persist committed). -/
def unit_succeeded (env : Env) (fid : FeedId) : Bool :=
  match unit_task env fid with
  | Except.ok _ => true
  | Except.error _ => false

/-- Environment in which feed 0 cannot acquire a database connection for
its unit of work, while every other unit succeeds. -/
def envC3 : Env :=
  { envW with poolGetUnit := fun fid => if fid = 0 then Except.error "db connection" else Except.ok () }

/-- C3 counterexample: a failure to acquire a database connection inside a
unit of work does NOT abort the batch.  With feed 0 unable to get a pooled
connection, the batch still completes with `Ok`, the remaining units run,
and all three identifiers deliver an outcome to the accumulator — the
connection failure arrives as that unit's own failure outcome. -/
theorem refresh_feeds_db_failure_no_abort :
    envC3.poolGetUnit 0 = Except.error "db connection"
    ∧ refresh_feeds envC3 (fun acc r => acc ++ [r]) [0, 1, 2] ([] : List (Except String Unit))
        = Except.ok [Except.error "db connection", Except.ok (), Except.ok ()] := by
  exact ⟨rfl, rfl⟩

theorem foldl_outcomes (env : Env) :
    ∀ (order : List FeedId) (acc : List (Except String Unit)),
      order.foldl (fun a g => a ++ [unit_task env g]) acc = acc ++ order.map (unit_task env) := by
  intro order
  induction order with
  | nil => intro acc; simp
  | cons g rest ih => intro acc; simp [List.foldl, ih]

theorem foldl_refresh_many_count (env : Env) :
    ∀ (order : List FeedId) (app : AppState) (n : Nat),
      (order.foldl (fun p g => refresh_many_step p (unit_task env g)) (app, n)).2
        = n + order.countP (fun g => unit_succeeded env g) := by
  intro order
  induction order with
  | nil => intro app n; simp
  | cons g rest ih =>
      intro app n
      rw [List.foldl_cons, List.countP_cons]
      cases hu : unit_task env g with
      | ok u =>
          rw [show refresh_many_step (app, n) (Except.ok u) = (app, n + 1) from rfl]
          rw [ih]
          simp [unit_succeeded, hu]
          omega
      | error e =>
          rw [show refresh_many_step (app, n) (Except.error e) = (push_error_flash app e, n) from rfl]
          rw [ih]
          simp [unit_succeeded, hu]

/-- C3 (amended): only a scheduling fault — a `spawn_blocking` join error —
aborts a refresh batch.  When no join fault occurs, the batch never aborts:
every unit (in completion order) delivers exactly its own outcome to the
caller-supplied accumulator, a unit that cannot acquire a database
connection contributes its failure as an ordinary unit outcome, and the
success count accumulated by the `RefreshFeeds` arm equals exactly the
number of succeeding identifiers in the batch. -/
theorem refresh_feeds_unit_isolation (env : Env) (ids order : List FeedId) (app : AppState)
    (hperm : order.Perm ids) (hjoin : ∀ fid ∈ order, env.joinResult fid = none) :
    refresh_feeds env (fun acc r => acc ++ [r]) order ([] : List (Except String Unit))
        = Except.ok (order.map (unit_task env))
    ∧ (∃ app1, refresh_feeds env refresh_many_step order (app, 0)
        = Except.ok (app1, List.countP (fun g => unit_succeeded env g) ids))
    ∧ ∀ (order2 : List FeedId) (acc : AppState × Nat),
        (∃ fid ∈ order2, env.joinResult fid ≠ none) →
        ∃ e, refresh_feeds env refresh_many_step order2 acc = Except.error e := by
  refine ⟨?_, ?_, ?_⟩
  · rw [refresh_feeds_ok env _ order _ hjoin, foldl_outcomes]
    simp
  · refine ⟨(order.foldl (fun p g => refresh_many_step p (unit_task env g)) (app, 0)).1, ?_⟩
    rw [refresh_feeds_ok env _ order _ hjoin]
    have hc := foldl_refresh_many_count env order app 0
    have hcnt : List.countP (fun g => unit_succeeded env g) order
        = List.countP (fun g => unit_succeeded env g) ids :=
      List.Perm.countP_eq _ hperm
    have h2 : (order.foldl (fun p g => refresh_many_step p (unit_task env g)) (app, 0)).2
        = List.countP (fun g => unit_succeeded env g) ids := by
      rw [hc, Nat.zero_add, hcnt]
    rw [← h2]
  · intro order2 acc hex
    exact refresh_feeds_join_abort env refresh_many_step order2 acc hex

theorem refresh_feeds_unit_isolation_witness :
    refresh_feeds envC3 (fun acc r => acc ++ [r]) [0, 1, 2] ([] : List (Except String Unit))
        = Except.ok ([0, 1, 2].map (unit_task envC3))
    ∧ (∃ app1, refresh_feeds envC3 refresh_many_step [0, 1, 2] (appW, 0)
        = Except.ok (app1, List.countP (fun g => unit_succeeded envC3 g) [0, 1, 2]))
    ∧ ∀ (order2 : List FeedId) (acc : AppState × Nat),
        (∃ fid ∈ order2, envC3.joinResult fid ≠ none) →
        ∃ e, refresh_feeds envC3 refresh_many_step order2 acc = Except.error e :=
  refresh_feeds_unit_isolation envC3 [0, 1, 2] [0, 1, 2] appW (List.Perm.refl _)
    (by intro fid _; rfl)

/-- State of the bounded fan-out performed by
`requests_stream.buffer_unordered(num_cpus::get() * 2)` inside
`refresh_feeds`: `pending` are units whose future has not been polled from
the stream yet, `inflight` the units currently running, `done` the outcomes
already yielded to the drain loop (in completion order). -/
structure SchedState where
  pending : List FeedId
  inflight : List FeedId
  done : List (FeedId × Except String Unit)

/-- Initial window state for a batch of feed identifiers. -/
def sched_init (ids : List FeedId) : SchedState := ⟨ids, [], []⟩

/-- Steps of the `buffer_unordered` window: a new unit is started only while
fewer than `limit` are in flight (and units start in stream order), and any
in-flight unit may finish, delivering its outcome next.  This
over-approximates the scheduler: every real interleaving is a trace of this
relation. -/
inductive SchedStep (env : Env) (limit : Nat) : SchedState → SchedState → Prop
  | start (s : SchedState) (fid : FeedId) (rest : List FeedId)
      (hlt : s.inflight.length < limit) (hp : s.pending = fid :: rest) :
      SchedStep env limit s ⟨rest, fid :: s.inflight, s.done⟩
  | finish (s : SchedState) (l1 : List FeedId) (fid : FeedId) (l2 : List FeedId)
      (hin : s.inflight = l1 ++ fid :: l2) :
      SchedStep env limit s ⟨s.pending, l1 ++ l2, s.done ++ [(fid, unit_task env fid)]⟩

theorem coe_list_cons (a : FeedId) (l : List FeedId) :
    ((a :: l : List FeedId) : Multiset FeedId) = {a} + (l : Multiset FeedId) := by
  rw [← Multiset.cons_coe, ← Multiset.singleton_add]

theorem sched_reach_inv (env : Env) (limit : Nat) (ids : List FeedId) (s : SchedState)
    (h : Relation.ReflTransGen (SchedStep env limit) (sched_init ids) s) :
    s.inflight.length ≤ limit
    ∧ ((s.done.map Prod.fst : Multiset FeedId) + (s.inflight : Multiset FeedId)
        + (s.pending : Multiset FeedId) = (ids : Multiset FeedId)) := by
  induction h with
  | refl =>
      refine ⟨Nat.zero_le _, ?_⟩
      simp [sched_init]
  | tail _ hstep ih =>
      obtain ⟨ih1, ih2⟩ := ih
      cases hstep with
      | start fid rest hlt hp =>
          refine ⟨by simpa using hlt, ?_⟩
          rw [hp] at ih2
          rw [← ih2, coe_list_cons fid, coe_list_cons fid]
          abel
      | finish l1 fid l2 hin =>
          constructor
          · rw [hin] at ih1
            simp only [List.length_append, List.length_cons] at ih1 ⊢
            omega
          · rw [hin] at ih2
            rw [← ih2]
            simp only [List.map_append, List.map_cons, List.map_nil,
              ← Multiset.coe_add, coe_list_cons, Multiset.coe_singleton]
            abel

/-- C2: the fetch pipeline keeps at most `2 × numCpus` units in flight at
any instant (every reachable window state satisfies the bound), every unit
of the batch is accounted for at every instant (done + in flight + queued is
exactly the batch), the batch is complete — nothing queued, nothing in
flight — only when all `k` units have delivered an outcome to the
accumulator, and while the window is not full a queued unit can start at
once (as one completes, the next starts). -/
theorem refresh_feeds_bounded (env : Env) (numCpus : Nat) (ids : List FeedId) (s : SchedState)
    (h : Relation.ReflTransGen (SchedStep env (numCpus * 2)) (sched_init ids) s) :
    s.inflight.length ≤ numCpus * 2
    ∧ ((s.done.map Prod.fst : Multiset FeedId) + (s.inflight : Multiset FeedId)
        + (s.pending : Multiset FeedId) = (ids : Multiset FeedId))
    ∧ (s.pending = [] ∧ s.inflight = [] →
        (s.done.map Prod.fst).Perm ids ∧ s.done.length = ids.length)
    ∧ (∀ fid rest, s.inflight.length < numCpus * 2 → s.pending = fid :: rest →
        SchedStep env (numCpus * 2) s ⟨rest, fid :: s.inflight, s.done⟩) := by
  obtain ⟨h1, h2⟩ := sched_reach_inv env (numCpus * 2) ids s h
  refine ⟨h1, h2, ?_, ?_⟩
  · rintro ⟨hp, hi⟩
    rw [hp, hi] at h2
    simp only [Multiset.coe_nil, add_zero] at h2
    have hperm : (s.done.map Prod.fst).Perm ids := Multiset.coe_eq_coe.mp h2
    refine ⟨hperm, ?_⟩
    have := hperm.length_eq
    simpa using this
  · intro fid rest hlt hp
    exact SchedStep.start s fid rest hlt hp

def schedW1 : SchedState := ⟨[1], [0], []⟩

def schedW2 : SchedState := ⟨[1], [], [(0, unit_task envW 0)]⟩

theorem refresh_feeds_bounded_witness :
    schedW2.inflight.length ≤ 1 * 2
    ∧ ((schedW2.done.map Prod.fst : Multiset FeedId) + (schedW2.inflight : Multiset FeedId)
        + (schedW2.pending : Multiset FeedId) = (([0, 1] : List FeedId) : Multiset FeedId))
    ∧ (schedW2.pending = [] ∧ schedW2.inflight = [] →
        (schedW2.done.map Prod.fst).Perm [0, 1]
        ∧ schedW2.done.length = ([0, 1] : List FeedId).length)
    ∧ (∀ fid rest, schedW2.inflight.length < 1 * 2 → schedW2.pending = fid :: rest →
        SchedStep envW (1 * 2) schedW2 ⟨rest, fid :: schedW2.inflight, schedW2.done⟩) :=
  refresh_feeds_bounded envW 1 [0, 1] schedW2
    (Relation.ReflTransGen.tail
      (Relation.ReflTransGen.single
        (SchedStep.start (sched_init [0, 1]) 0 [1] (by decide) rfl))
      (SchedStep.finish schedW1 [] 0 [] rfl))

/-- Outcomes of the external calls made by the render/control thread.
`onKey` is `App::on_key` (the generic per-key action handler), `toggleRead`
is `App::toggle_read`, `deleteFeed` is `App::delete_feed`, `feedIds` is
`App::feed_ids` (all in the absent `app.rs`; only their call sites and
failure handling in `main.rs` matter here), and the last three are the
terminal-teardown calls of the quit arm. -/
structure Ext where
  onKey : KeyCode → KeyModifiers → AppState → Except String AppState
  toggleRead : AppState → Except String AppState
  deleteFeed : AppState → Except String AppState
  feedIds : AppState → Except String (List FeedId)
  disableRaw : Except String Unit
  leaveAltScreen : Except String Unit
  showCursor : Except String Unit

/-- Result of handling one unified event on the render thread: the new
application state, the commands sent to the I/O queue, and whether the
render loop `break`s. -/
structure RenderOut where
  app : AppState
  sent : List IoCommand
  exitLoop : Bool
deriving DecidableEq

/-- The shared arm for `(Char('q'), _) | (Char('c'), CONTROL) | (Esc, _)` in
Normal mode: if the error flash is non-empty, dismiss only it; otherwise
tear the terminal down, send `IoCommand::Break` and leave the render loop. -/
def quit_branch (ext : Ext) (app : AppState) : Except String RenderOut :=
  if error_flash_is_empty app = false then
    Except.ok ⟨clear_error_flash app, [], false⟩
  else
    match ext.disableRaw with
    | Except.error e => Except.error e
    | Except.ok _ =>
      match ext.leaveAltScreen with
      | Except.error e => Except.error e
      | Except.ok _ =>
        match ext.showCursor with
        | Except.error e => Except.error e
        | Except.ok _ => Except.ok ⟨app, [IoCommand.Break], true⟩

/-- The `Mode::Normal` key dispatch of `main`'s render loop, with the
source's match arms in source order. -/
def handle_normal_input (ext : Ext) (app : AppState) (k : KeyEvent) : Except String RenderOut :=
  match k.code, k.modifiers with
  | KeyCode.Char 'q', _ => quit_branch ext app
  | KeyCode.Char 'c', KeyModifiers.CONTROL => quit_branch ext app
  | KeyCode.Esc, _ => quit_branch ext app
  | KeyCode.Char 'r', KeyModifiers.NONE =>
      match app.selected with
      | Selected.Feeds => Except.ok ⟨app, [IoCommand.RefreshFeed app.selectedFeedId], false⟩
      | _ =>
          match ext.toggleRead app with
          | Except.error e => Except.error e
          | Except.ok a => Except.ok ⟨a, [], false⟩
  | KeyCode.Char 'x', KeyModifiers.NONE =>
      match ext.feedIds app with
      | Except.error e => Except.error e
      | Except.ok fids => Except.ok ⟨app, [IoCommand.RefreshFeeds fids], false⟩
  | code, mods =>
      match ext.onKey code mods app with
      | Except.error e => Except.ok ⟨push_error_flash app e, [], false⟩
      | Except.ok a => Except.ok ⟨a, [], false⟩

/-- The `Mode::Editing` key dispatch of `main`'s render loop. -/
def handle_editing_input (ext : Ext) (app : AppState) (k : KeyEvent) : Except String RenderOut :=
  match k.code with
  | KeyCode.Enter =>
      Except.ok ⟨app, [IoCommand.SubscribeToFeed app.feedSubscriptionInput], false⟩
  | KeyCode.Char c => Except.ok ⟨push_feed_subscription_input app c, [], false⟩
  | KeyCode.Backspace => Except.ok ⟨pop_feed_subscription_input app, [], false⟩
  | KeyCode.Delete =>
      match ext.deleteFeed app with
      | Except.error e => Except.error e
      | Except.ok a => Except.ok ⟨a, [], false⟩
  | KeyCode.Esc => Except.ok ⟨set_mode app Mode.Normal, [], false⟩
  | _ => Except.ok ⟨app, [], false⟩

/-- One iteration of the render loop's event handling: dispatch on the
current mode, then on the received unified event (`Tick` is a no-op beyond
the redraw). -/
def main_handle_event (ext : Ext) (app : AppState) : Event KeyEvent → Except String RenderOut
  | Event.Input k =>
      match app.mode with
      | Mode.Normal => handle_normal_input ext app k
      | Mode.Editing => handle_editing_input ext app k
  | Event.Tick => Except.ok ⟨app, [], false⟩

/-- Observable actions of `main` around shutdown. -/
inductive MainAct
  | disableRaw
  | leaveAltScreen
  | showCursor
  | sendIo (c : IoCommand)
  | exitRenderLoop
  | joinIoThread
deriving DecidableEq

/-- The quit arm of `main` with no error flash active, in source order:
`disable_raw_mode()`, `LeaveAlternateScreen`, `show_cursor()`,
`io_s.send(IoCommand::Break)`, `break`. -/
def quitPathActs : List MainAct :=
  [MainAct.disableRaw, MainAct.leaveAltScreen, MainAct.showCursor,
   MainAct.sendIo IoCommand.Break, MainAct.exitRenderLoop]

/-- What `main` does after the render loop: `io_thread.join()`. -/
def mainEpilogueActs : List MainAct := [MainAct.joinIoThread]

/-- The full shutdown sequence on the quit path. -/
def quitShutdownTrace : List MainAct := quitPathActs ++ mainEpilogueActs

/-- A trivial render-thread environment used by concrete inputs. -/
def extW : Ext :=
  { onKey := fun _ _ a => Except.ok a
    toggleRead := fun a => Except.ok a
    deleteFeed := fun a => Except.ok a
    feedIds := fun _ => Except.ok []
    disableRaw := Except.ok ()
    leaveAltScreen := Except.ok ()
    showCursor := Except.ok () }

/-- A concrete Editing-mode application state with a partly typed buffer. -/
def appEdit : AppState := { appW with mode := Mode.Editing, feedSubscriptionInput := "abc" }

/-- C5 counterexample: the quit combinations are NOT intercepted in Editing
mode.  In Editing, `q` and the `c` of Ctrl-C are appended to the input
buffer as ordinary characters — nothing is sent, nothing is dismissed, the
loop continues — whereas the same `q` press in Normal mode quits (sends
`Break` and exits the loop), so the interception is not mode-independent. -/
theorem quit_keys_editing_counterexample :
    main_handle_event extW appEdit (Event.Input ⟨KeyCode.Char 'q', KeyModifiers.NONE⟩)
      = Except.ok ⟨{ appEdit with feedSubscriptionInput := "abcq" }, [], false⟩
    ∧ main_handle_event extW appEdit (Event.Input ⟨KeyCode.Char 'c', KeyModifiers.CONTROL⟩)
      = Except.ok ⟨{ appEdit with feedSubscriptionInput := "abcc" }, [], false⟩
    ∧ main_handle_event extW { appEdit with mode := Mode.Normal }
        (Event.Input ⟨KeyCode.Char 'q', KeyModifiers.NONE⟩)
      = Except.ok ⟨{ appEdit with mode := Mode.Normal }, [IoCommand.Break], true⟩ := by
  exact ⟨rfl, rfl, rfl⟩

/-- C5 (amended): the quit combinations are intercepted, identically for
all three of them, only in Normal mode — `q` with any modifiers, Ctrl-C,
and `Esc` with any modifiers all take the same quit/error-dismiss branch
before any other handling.  In Editing mode `q` and the `c` of Ctrl-C are
ordinary input characters appended to the buffer, and `Esc` switches the
mode to Normal instead of quitting. -/
theorem quit_keys_normal_only (ext : Ext) (app : AppState) (m : KeyModifiers) :
    (app.mode = Mode.Normal →
        main_handle_event ext app (Event.Input ⟨KeyCode.Char 'q', m⟩) = quit_branch ext app
        ∧ main_handle_event ext app (Event.Input ⟨KeyCode.Char 'c', KeyModifiers.CONTROL⟩)
            = quit_branch ext app
        ∧ main_handle_event ext app (Event.Input ⟨KeyCode.Esc, m⟩) = quit_branch ext app)
    ∧ (app.mode = Mode.Editing →
        main_handle_event ext app (Event.Input ⟨KeyCode.Char 'q', m⟩)
          = Except.ok ⟨push_feed_subscription_input app 'q', [], false⟩
        ∧ main_handle_event ext app (Event.Input ⟨KeyCode.Char 'c', KeyModifiers.CONTROL⟩)
          = Except.ok ⟨push_feed_subscription_input app 'c', [], false⟩
        ∧ main_handle_event ext app (Event.Input ⟨KeyCode.Esc, m⟩)
          = Except.ok ⟨set_mode app Mode.Normal, [], false⟩) := by
  constructor
  · intro h
    cases m <;> simp only [main_handle_event, h] <;> exact ⟨rfl, rfl, rfl⟩
  · intro h
    cases m <;> simp only [main_handle_event, h] <;> exact ⟨rfl, rfl, rfl⟩

theorem quit_keys_normal_only_witness :
    (appEdit.mode = Mode.Normal →
        main_handle_event extW appEdit (Event.Input ⟨KeyCode.Char 'q', KeyModifiers.NONE⟩)
            = quit_branch extW appEdit
        ∧ main_handle_event extW appEdit (Event.Input ⟨KeyCode.Char 'c', KeyModifiers.CONTROL⟩)
            = quit_branch extW appEdit
        ∧ main_handle_event extW appEdit (Event.Input ⟨KeyCode.Esc, KeyModifiers.NONE⟩)
            = quit_branch extW appEdit)
    ∧ (appEdit.mode = Mode.Editing →
        main_handle_event extW appEdit (Event.Input ⟨KeyCode.Char 'q', KeyModifiers.NONE⟩)
          = Except.ok ⟨push_feed_subscription_input appEdit 'q', [], false⟩
        ∧ main_handle_event extW appEdit (Event.Input ⟨KeyCode.Char 'c', KeyModifiers.CONTROL⟩)
          = Except.ok ⟨push_feed_subscription_input appEdit 'c', [], false⟩
        ∧ main_handle_event extW appEdit (Event.Input ⟨KeyCode.Esc, KeyModifiers.NONE⟩)
          = Except.ok ⟨set_mode appEdit Mode.Normal, [], false⟩) :=
  quit_keys_normal_only extW appEdit KeyModifiers.NONE

/-- C6 counterexample: on the quit path the render loop is exited first and
the I/O thread is joined afterwards, so the render loop does NOT exit "only
after the I/O thread has been joined" — the join strictly follows the loop
exit in the shutdown sequence. -/
theorem render_loop_exit_precedes_join :
    quitShutdownTrace.findIdx (fun a => decide (a = MainAct.exitRenderLoop))
      < quitShutdownTrace.findIdx (fun a => decide (a = MainAct.joinIoThread))
    ∧ ¬ (quitShutdownTrace.findIdx (fun a => decide (a = MainAct.joinIoThread))
      < quitShutdownTrace.findIdx (fun a => decide (a = MainAct.exitRenderLoop))) := by
  decide

/-- C6 (amended): in Normal mode, pressing any of the quit keys — `q` with
any modifiers, Ctrl-C, or `Esc` with any modifiers — with an error
notification active clears only the error notifications and leaves
everything else — in particular the status flash — untouched, sends nothing
and keeps the loop running; with no error notification active each of them
sends exactly one `Break` (Terminate) command and exits the render loop;
the shutdown trace contains exactly one `Break` send, and the I/O thread is
joined after the render loop exits (not before). -/
theorem quit_key_semantics (ext : Ext) (app : AppState) (m : KeyModifiers)
    (hm : app.mode = Mode.Normal)
    (hdr : ext.disableRaw = Except.ok ()) (hla : ext.leaveAltScreen = Except.ok ())
    (hsc : ext.showCursor = Except.ok ()) :
    (app.errorFlash ≠ [] →
        main_handle_event ext app (Event.Input ⟨KeyCode.Char 'q', m⟩)
          = Except.ok ⟨clear_error_flash app, [], false⟩
        ∧ main_handle_event ext app (Event.Input ⟨KeyCode.Char 'c', KeyModifiers.CONTROL⟩)
          = Except.ok ⟨clear_error_flash app, [], false⟩
        ∧ main_handle_event ext app (Event.Input ⟨KeyCode.Esc, m⟩)
          = Except.ok ⟨clear_error_flash app, [], false⟩
        ∧ clear_error_flash app = { app with errorFlash := [] })
    ∧ (app.errorFlash = [] →
        main_handle_event ext app (Event.Input ⟨KeyCode.Char 'q', m⟩)
          = Except.ok ⟨app, [IoCommand.Break], true⟩
        ∧ main_handle_event ext app (Event.Input ⟨KeyCode.Char 'c', KeyModifiers.CONTROL⟩)
          = Except.ok ⟨app, [IoCommand.Break], true⟩
        ∧ main_handle_event ext app (Event.Input ⟨KeyCode.Esc, m⟩)
          = Except.ok ⟨app, [IoCommand.Break], true⟩)
    ∧ quitShutdownTrace.countP (fun a => decide (a = MainAct.sendIo IoCommand.Break)) = 1
    ∧ quitShutdownTrace.findIdx (fun a => decide (a = MainAct.exitRenderLoop))
        < quitShutdownTrace.findIdx (fun a => decide (a = MainAct.joinIoThread)) := by
  have hkq : main_handle_event ext app (Event.Input ⟨KeyCode.Char 'q', m⟩)
      = quit_branch ext app := by
    cases m <;> simp only [main_handle_event, hm] <;> rfl
  have hkc : main_handle_event ext app (Event.Input ⟨KeyCode.Char 'c', KeyModifiers.CONTROL⟩)
      = quit_branch ext app := by
    simp only [main_handle_event, hm]
    rfl
  have hke : main_handle_event ext app (Event.Input ⟨KeyCode.Esc, m⟩)
      = quit_branch ext app := by
    cases m <;> simp only [main_handle_event, hm] <;> rfl
  have hclear : app.errorFlash ≠ [] →
      quit_branch ext app = Except.ok ⟨clear_error_flash app, [], false⟩ := by
    intro h
    rcases happ : app.errorFlash with _ | ⟨x, xs⟩
    · exact absurd happ h
    · have h1 : error_flash_is_empty app = false := by
        simp [error_flash_is_empty, happ]
      simp [quit_branch, h1]
  have hbreak : app.errorFlash = [] →
      quit_branch ext app = Except.ok ⟨app, [IoCommand.Break], true⟩ := by
    intro h
    have h1 : error_flash_is_empty app = true := by
      simp [error_flash_is_empty, h]
    simp [quit_branch, h1, hdr, hla, hsc]
  refine ⟨?_, ?_, by decide, by decide⟩
  · intro h
    exact ⟨hkq.trans (hclear h), hkc.trans (hclear h), hke.trans (hclear h), rfl⟩
  · intro h
    exact ⟨hkq.trans (hbreak h), hkc.trans (hbreak h), hke.trans (hbreak h)⟩

/-- A concrete Normal-mode state with an error notification active. -/
def appErr : AppState := { appW with errorFlash := ["fetch failed"] }

theorem quit_key_semantics_witness :
    appErr.mode = Mode.Normal
    ∧ ((appErr.errorFlash ≠ [] →
        main_handle_event extW appErr (Event.Input ⟨KeyCode.Char 'q', KeyModifiers.NONE⟩)
          = Except.ok ⟨clear_error_flash appErr, [], false⟩
        ∧ main_handle_event extW appErr (Event.Input ⟨KeyCode.Char 'c', KeyModifiers.CONTROL⟩)
          = Except.ok ⟨clear_error_flash appErr, [], false⟩
        ∧ main_handle_event extW appErr (Event.Input ⟨KeyCode.Esc, KeyModifiers.NONE⟩)
          = Except.ok ⟨clear_error_flash appErr, [], false⟩
        ∧ clear_error_flash appErr = { appErr with errorFlash := [] })
    ∧ (appErr.errorFlash = [] →
        main_handle_event extW appErr (Event.Input ⟨KeyCode.Char 'q', KeyModifiers.NONE⟩)
          = Except.ok ⟨appErr, [IoCommand.Break], true⟩
        ∧ main_handle_event extW appErr (Event.Input ⟨KeyCode.Char 'c', KeyModifiers.CONTROL⟩)
          = Except.ok ⟨appErr, [IoCommand.Break], true⟩
        ∧ main_handle_event extW appErr (Event.Input ⟨KeyCode.Esc, KeyModifiers.NONE⟩)
          = Except.ok ⟨appErr, [IoCommand.Break], true⟩)
    ∧ quitShutdownTrace.countP (fun a => decide (a = MainAct.sendIo IoCommand.Break)) = 1
    ∧ quitShutdownTrace.findIdx (fun a => decide (a = MainAct.exitRenderLoop))
        < quitShutdownTrace.findIdx (fun a => decide (a = MainAct.joinIoThread))) :=
  ⟨rfl, quit_key_semantics extW appErr KeyModifiers.NONE rfl rfl rfl rfl⟩

/-- C7: Editing-mode key semantics.  `Escape` moves the mode to Normal and
changes nothing else (in particular the input buffer); `Enter` leaves the
state — and hence the mode — unchanged and dispatches exactly one
`SubscribeToFeed` command carrying the buffer's current contents; a
character key appends that character to the buffer; `Backspace` drops the
buffer's last character.  None of these sends anything else or leaves the
loop. -/
theorem editing_mode_keys (ext : Ext) (app : AppState) (c : Char) (m : KeyModifiers)
    (h : app.mode = Mode.Editing) :
    main_handle_event ext app (Event.Input ⟨KeyCode.Esc, m⟩)
      = Except.ok ⟨set_mode app Mode.Normal, [], false⟩
    ∧ set_mode app Mode.Normal = { app with mode := Mode.Normal }
    ∧ main_handle_event ext app (Event.Input ⟨KeyCode.Enter, m⟩)
      = Except.ok ⟨app, [IoCommand.SubscribeToFeed app.feedSubscriptionInput], false⟩
    ∧ main_handle_event ext app (Event.Input ⟨KeyCode.Char c, m⟩)
      = Except.ok ⟨push_feed_subscription_input app c, [], false⟩
    ∧ (push_feed_subscription_input app c).feedSubscriptionInput
      = app.feedSubscriptionInput.push c
    ∧ main_handle_event ext app (Event.Input ⟨KeyCode.Backspace, m⟩)
      = Except.ok ⟨pop_feed_subscription_input app, [], false⟩
    ∧ (pop_feed_subscription_input app).feedSubscriptionInput
      = app.feedSubscriptionInput.dropRight 1 := by
  simp only [main_handle_event, h]
  exact ⟨rfl, rfl, rfl, rfl, rfl, rfl, rfl⟩

theorem editing_mode_keys_witness :
    appEdit.mode = Mode.Editing
    ∧ (main_handle_event extW appEdit (Event.Input ⟨KeyCode.Esc, KeyModifiers.NONE⟩)
      = Except.ok ⟨set_mode appEdit Mode.Normal, [], false⟩
    ∧ set_mode appEdit Mode.Normal = { appEdit with mode := Mode.Normal }
    ∧ main_handle_event extW appEdit (Event.Input ⟨KeyCode.Enter, KeyModifiers.NONE⟩)
      = Except.ok ⟨appEdit, [IoCommand.SubscribeToFeed appEdit.feedSubscriptionInput], false⟩
    ∧ main_handle_event extW appEdit (Event.Input ⟨KeyCode.Char 'z', KeyModifiers.NONE⟩)
      = Except.ok ⟨push_feed_subscription_input appEdit 'z', [], false⟩
    ∧ (push_feed_subscription_input appEdit 'z').feedSubscriptionInput
      = appEdit.feedSubscriptionInput.push 'z'
    ∧ main_handle_event extW appEdit (Event.Input ⟨KeyCode.Backspace, KeyModifiers.NONE⟩)
      = Except.ok ⟨pop_feed_subscription_input appEdit, [], false⟩
    ∧ (pop_feed_subscription_input appEdit).feedSubscriptionInput
      = appEdit.feedSubscriptionInput.dropRight 1) :=
  ⟨rfl, editing_mode_keys extW appEdit 'z' KeyModifiers.NONE rfl⟩

/-- A terminal event as returned by `crossterm::event::read()`: either a key
event or any other event kind (resize, mouse, ...), which the thread
ignores. -/
inductive CrosstermEvent
  | key (k : KeyEvent)
  | other
deriving DecidableEq

/-- What the poll phase of one input-thread iteration forwards:
`if event::poll(..)` succeeded and `event::read()` returned a key event, an
`Event::Input` is sent; any other poll outcome sends nothing. -/
def poll_inputs (pollResult : Option CrosstermEvent) : List (Event KeyEvent) :=
  match pollResult with
  | some (CrosstermEvent.key k) => [Event.Input k]
  | _ => []

/-- One iteration of the input/tick thread's loop.  `pollResult` is what
`event::poll(tick_rate - last_tick.elapsed())` + `event::read()` produced
(`none` when the timeout elapsed with no event), and `elapsedAtCheck` is
`last_tick.elapsed()` at the separate `if last_tick.elapsed() >= tick_rate`
check that follows.  The result is the list of events sent this iteration,
in order, and whether `last_tick` was reset to `Instant::now()`. -/
def input_tick_iteration (pollResult : Option CrosstermEvent)
    (elapsedAtCheck tickRate : Nat) : List (Event KeyEvent) × Bool :=
  if tickRate ≤ elapsedAtCheck then (poll_inputs pollResult ++ [Event.Tick], true)
  else (poll_inputs pollResult, false)

def keyA : KeyEvent := ⟨KeyCode.Char 'a', KeyModifiers.NONE⟩

/-- C8 counterexample: a single iteration of the input/tick thread can emit
BOTH an `Input` and a `Tick`.  The tick check `last_tick.elapsed() >=
tick_rate` is independent of whether a key event was read, so when a key
arrives and the elapsed time has meanwhile reached the tick rate, the
iteration forwards the key and then also emits a tick — contradicting "a
Tick is emitted only when the poll timeout elapses with no key event". -/
theorem tick_and_input_same_iteration :
    input_tick_iteration (some (CrosstermEvent.key keyA)) 250 250
      = ([Event.Input keyA, Event.Tick], true)
    ∧ Event.Input keyA ∈ (input_tick_iteration (some (CrosstermEvent.key keyA)) 250 250).1
    ∧ Event.Tick ∈ (input_tick_iteration (some (CrosstermEvent.key keyA)) 250 250).1 := by
  decide

/-- C8 (amended): a key event that arrives within the poll timeout is
forwarded immediately — it is the first event of the iteration; a `Tick` is
emitted exactly when the elapsed time since the last tick has reached the
tick rate at the end-of-iteration check, independently of whether a key was
received (so one iteration can emit both), and the next tick boundary is
recomputed from the current time exactly when a `Tick` fires; an iteration
whose poll times out with no event emits a `Tick` alone when the boundary
was reached and nothing otherwise. -/
theorem input_tick_iteration_spec (k : KeyEvent) (pr : Option CrosstermEvent)
    (elapsed rate : Nat) :
    (input_tick_iteration (some (CrosstermEvent.key k)) elapsed rate).1.head?
      = some (Event.Input k)
    ∧ (Event.Tick ∈ (input_tick_iteration pr elapsed rate).1 ↔ rate ≤ elapsed)
    ∧ ((input_tick_iteration pr elapsed rate).2 = true ↔ rate ≤ elapsed)
    ∧ (input_tick_iteration none elapsed rate).1
      = (if rate ≤ elapsed then [Event.Tick] else []) := by
  refine ⟨?_, ?_, ?_, ?_⟩
  · simp only [input_tick_iteration]
    split <;> rfl
  · rcases pr with _ | ce
    · simp only [input_tick_iteration]
      split <;> simp_all [poll_inputs]
    · cases ce <;>
        (simp only [input_tick_iteration]
         split <;> simp_all [poll_inputs])
  · simp only [input_tick_iteration]
    split <;> simp_all
  · simp only [input_tick_iteration]
    split <;> rfl

theorem input_tick_iteration_spec_witness :
    (input_tick_iteration (some (CrosstermEvent.key keyA)) 100 250).1.head?
      = some (Event.Input keyA)
    ∧ (Event.Tick ∈ (input_tick_iteration (some (CrosstermEvent.key keyA)) 100 250).1
        ↔ 250 ≤ 100)
    ∧ ((input_tick_iteration (some (CrosstermEvent.key keyA)) 100 250).2 = true ↔ 250 ≤ 100)
    ∧ (input_tick_iteration none 100 250).1 = (if 250 ≤ 100 then [Event.Tick] else []) :=
  input_tick_iteration_spec keyA (some (CrosstermEvent.key keyA)) 100 250

end Russ
